import Mathlib

/-!
Verification of `misc/scripts/sjcam-copy.py`: a polling archiver that lists a
source directory, compresses every `.fits` entry with `/bin/gzip -1`, parses a
timestamp out of the compressed filename and moves it into a date-partitioned
tree below a destination root, until a SIGINT/SIGTERM sets a quit flag.

Filenames and paths are modelled as `List Char` (Python 2 byte strings).
External effects (`gzip`, `mkdir -p`, `mv`, `os.path.isdir`) are modelled as
boolean oracles inside an environment, and each call that the script issues is
recorded in a trace of `FsOp` events.
-/

set_option autoImplicit false

namespace SjcamCopy

/-- The literal `.fits` suffix used by the directory filter (line 95) and by
the regular expression (line 33). -/
def fitsSuffix : List Char := ['.', 'f', 'i', 't', 's']

/-- The literal `.gz` suffix appended by gzip and accepted optionally by the
regular expression (line 33). -/
def gzSuffix : List Char := ['.', 'g', 'z']

/-- Python `str.endswith`: decidable list-suffix test. -/
def endswith (l s : List Char) : Bool := decide (s <:+ l)

/-- If `s` is a suffix of `l`, remove it; otherwise `none`. -/
def stripSuffix (l s : List Char) : Option (List Char) :=
  if s <:+ l then some (l.take (l.length - s.length)) else none

/-- Split off the last `k` characters of `l`, failing when `l` is shorter. -/
def splitLast (k : Nat) (l : List Char) : Option (List Char × List Char) :=
  if k ≤ l.length then some (l.take (l.length - k), l.drop (l.length - k)) else none

/-- The rigid 19-character tail `_YYYYMMDD-NNNNNNNNN` of the filename pattern:
one underscore, four year digits, two month digits, two day digits, a dash and
nine digits.  Digits are ASCII (`\d` of a Python 2 byte-string regex).  Returns
the three captured date groups. -/
def checkTail (t : List Char) : Option (List Char × List Char × List Char) :=
  if t.take 1 = ['_'] ∧ (t.drop 9).take 1 = ['-'] ∧
      ((t.drop 1).take 8).all Char.isDigit = true ∧ (t.drop 10).all Char.isDigit = true then
    some ((t.drop 1).take 4, (t.drop 5).take 2, (t.drop 7).take 2)
  else none

/-- Matching of `^(.*)_(\d{4})(\d{2})(\d{2})-\d{9}\.fits$` against `base`:
strip the mandatory `.fits`, split off the rigid 19-character tail, check it,
and require the captured leading group to be newline-free (regex `.`). -/
def parseNoGz (base : List Char) :
    Option (List Char × List Char × List Char × List Char) :=
  match stripSuffix base fitsSuffix with
  | none => none
  | some r =>
    match splitLast 19 r with
    | none => none
    | some (p, t) =>
      match checkTail t with
      | none => none
      | some (y, mo, dy) =>
        if p.all (fun c => c != '\n') then some (p, y, mo, dy) else none

/-- A single newline, for the end-anchor allowance of the regex `$`. -/
def nlSuffix : List Char := ['\n']

/-- Matching of `^(.*)_(\d{4})(\d{2})(\d{2})-\d{9}\.fits(?:\.gz)?$` with `$`
taken as the true end of the string: strip an optional `.gz` (a name ending in
`.gz` cannot match the no-`.gz` alternative, and conversely), then match the
rest.  Because the part after the captured group has a fixed length (19
characters plus `.fits` plus an optional `.gz`), a match decomposes the
filename uniquely. -/
def parseNoNl (fname : List Char) :
    Option (List Char × List Char × List Char × List Char) :=
  match stripSuffix fname gzSuffix with
  | some b => parseNoGz b
  | none => parseNoGz fname

/-- Embedding of `re_fname.match` (line 33) together with `m.groups()`:
the regex `^(.*)_(\d{4})(\d{2})(\d{2})-\d{9}\.fits(?:\.gz)?$`.  Python's `$`
matches at the end of the string or just before one newline at the end of the
string; since no alternative of the pattern body can end in a newline, a
filename matches exactly when it matches strictly after removing one trailing
newline if present. -/
def parseTimestamp (fname : List Char) :
    Option (List Char × List Char × List Char × List Char) :=
  match stripSuffix fname nlSuffix with
  | some b => parseNoNl b
  | none => parseNoNl fname

/-- Embedding of Python `posixpath.join` for one extra component `b`:
restart at `b` when it is absolute, insert a `/` separator unless the
accumulated path is empty or already ends in `/`. -/
def pathJoin (a b : List Char) : List Char :=
  if b.take 1 = ['/'] then b
  else if a = [] ∨ a.getLast? = some '/' then a ++ b
  else a ++ '/' :: b

/-- `os.path.join(a, *ps)`: fold `pathJoin` over the components. -/
def pathJoinList (a : List Char) (ps : List (List Char)) : List Char :=
  ps.foldl pathJoin a

/-- Environment of the script: the module-level global `dstbasedir`
(assigned at line 79 when run as a program, absent when `move_file` is called
without it) and boolean oracles for the outcomes of `os.path.isdir` and of the
`/bin/mkdir -p`, `/bin/mv` and `/bin/gzip -1` subprocess invocations. -/
structure Env where
  dstbasedir : Option (List Char)
  isdir : List Char → Bool
  mkdirOk : List Char → Bool
  mvOk : List Char → List Char → Bool
  gzipOk : List Char → Bool

/-- One external call issued by the script. -/
inductive FsOp where
  | gzipCall (path : List Char)
  | mkdirCall (dir : List Char)
  | mvCall (src dstdir : List Char)
  deriving DecidableEq

/-- Outcome of `move_file`: either the returned boolean, or the `NameError`
raised when the global `dstbasedir` is undefined. -/
inductive MoveResult where
  | nameError
  | ret (b : Bool)
  deriving DecidableEq

/-- Embedding of `move_file(fname, srcdir, destbasedir, verbose)`
(lines 44-54).  The body never reads the `destbasedir` parameter: the
destination is built from the global `dstbasedir` (line 48).  Returns the
result together with the trace of external calls.  The `verbose` parameter
only controls an stdout write and has no modelled effect. -/
def move_file (env : Env) (fname srcdir destbasedir : List Char) (verbose : Bool) :
    MoveResult × List FsOp :=
  match parseTimestamp fname with
  | none => (.ret false, [])
  | some (p, y, mo, dy) =>
    match env.dstbasedir with
    | none => (.nameError, [])
    | some g =>
      let dstdir := pathJoinList g [p, y, mo, dy]
      if env.isdir dstdir then
        (.ret (env.mvOk (pathJoin srcdir fname) dstdir),
         [.mvCall (pathJoin srcdir fname) dstdir])
      else if env.mkdirOk dstdir then
        (.ret (env.mvOk (pathJoin srcdir fname) dstdir),
         [.mkdirCall dstdir, .mvCall (pathJoin srcdir fname) dstdir])
      else
        (.ret false, [.mkdirCall dstdir])

/-- Body of the inner loop for one file (lines 97-100): gzip the source file,
and on success call `move_file` on the name with `.gz` appended.  Returns the
`move_file` outcome (when reached) and the trace of external calls. -/
def processOneFile (env : Env) (srcdir destbasedir fn : List Char) (verbose : Bool) :
    Option MoveResult × List FsOp :=
  let src := pathJoin srcdir fn
  if env.gzipOk src then
    let mres := move_file env (fn ++ gzSuffix) srcdir destbasedir verbose
    (some mres.1, .gzipCall src :: mres.2)
  else
    (none, [.gzipCall src])

/-- Line 95: the candidate list of one poll is the directory entries whose
names end with `.fits`. -/
def listCandidates (entries : List (List Char)) : List (List Char) :=
  entries.filter (fun fn => endswith fn fitsSuffix)

/-- Inner `for` loop over one batch (lines 96-105).  `q i` is the value of the
global `quit` flag at its `i`-th read; each file is processed first and the
flag is read afterwards (`if quit: break`, line 104).  Returns the processed
files with their traces, the next read index, and whether the loop broke. -/
def runBatch (env : Env) (srcdir destbasedir : List Char) (verbose : Bool)
    (q : Nat → Bool) : Nat → List (List Char) →
    List (List Char × List FsOp) × Nat × Bool
  | idx, [] => ([], idx, false)
  | idx, fn :: rest =>
    let ops := (processOneFile env srcdir destbasedir fn verbose).2
    if q idx then
      ([(fn, ops)], idx + 1, true)
    else
      let rec2 := runBatch env srcdir destbasedir verbose q (idx + 1) rest
      ((fn, ops) :: rec2.1, rec2.2)

/-- Outer `while not quit` loop (lines 94-106), with fuel bounding the number
of iterations.  `listing poll` is what `os.listdir` returns on iteration
`poll`.  Each iteration reads the quit flag once in the `while` condition and
once after each processed file.  Returns the per-poll batches and `some 0`
when the loop exited normally (the script then falls off the end and the
process exits with status 0), or `none` when the fuel ran out while still
running. -/
def runLoop (env : Env) (srcdir destbasedir : List Char) (verbose : Bool)
    (q : Nat → Bool) (listing : Nat → List (List Char)) :
    Nat → Nat → Nat → List (List (List Char × List FsOp)) × Option Nat
  | 0, _, _ => ([], none)
  | fuel + 1, poll, idx =>
    if q idx then ([], some 0)
    else
      let cands := listCandidates (listing poll)
      let b := runBatch env srcdir destbasedir verbose q (idx + 1) cands
      let r := runLoop env srcdir destbasedir verbose q listing fuel (poll + 1) b.2.1
      (b.1 :: r.1, r.2)

/-- Parsed command-line options (lines 59-68). -/
structure Opts where
  indir : Option (List Char)
  outdir : Option (List Char)
  verbose : Bool

/-- Validated configuration after startup (lines 77-79). -/
structure WatchConfig where
  srcdir : List Char
  dstbasedir : List Char
  verbose : Bool
  deriving DecidableEq

/-- Python truthiness test `not opts.x` on an optional string: true when the
option is absent or the empty string. -/
def falsy : Option (List Char) → Bool
  | none => true
  | some s => s = []

/-- Startup validation (lines 68-83).  `parser.error` prints a usage message
and exits with status 2; this is modelled as `Except.error 2`.  `abspath`
models `os.path.abspath` and `isdir` models `os.path.isdir` at startup time. -/
def startup (abspath : List Char → List Char) (isdir : List Char → Bool)
    (opts : Opts) (args : List (List Char)) : Except Nat WatchConfig :=
  if args ≠ [] then .error 2
  else if falsy opts.indir then .error 2
  else if falsy opts.outdir then .error 2
  else
    let srcdir := abspath (opts.indir.getD [])
    let dst := abspath (opts.outdir.getD [])
    if !isdir srcdir then .error 2
    else if !isdir dst then .error 2
    else .ok ⟨srcdir, dst, opts.verbose⟩

/-- The whole program: startup validation, then the loop with the global
`dstbasedir` set to the validated destination root (line 79).  On a startup
error no loop iteration runs and the exit status is the error status. -/
def runProgram (abspath : List Char → List Char) (isdir : List Char → Bool)
    (opts : Opts) (args : List (List Char)) (env : Env) (q : Nat → Bool)
    (listing : Nat → List (List Char)) (fuel : Nat) :
    List (List (List Char × List FsOp)) × Option Nat :=
  match startup abspath isdir opts args with
  | .error c => ([], some c)
  | .ok cfg =>
    runLoop { env with dstbasedir := some cfg.dstbasedir }
      cfg.srcdir cfg.dstbasedir cfg.verbose q listing fuel 0 0

/-- The quit flag is set at most once and never cleared: reads are monotone. -/
def QuitMono (q : Nat → Bool) : Prop :=
  ∀ i j : Nat, i ≤ j → q i = true → q j = true

/-- The file names of a processed batch, without their traces. -/
def filesOf (b : List (List Char × List FsOp)) : List (List Char) :=
  b.map Prod.fst

/-- Declarative reading of the filename pattern
`<prefix>_<YYYY><MM><DD>-<9 digits>.fits[.gz]` with the given captured groups:
the filename decomposes into an arbitrary newline-free first group, an
underscore, four year digits, two month digits, two day digits, a dash, nine
digits, `.fits` and an optional `.gz`. -/
def MatchesPat (fname p y mo dy : List Char) : Prop :=
  ∃ n gz : List Char,
    fname = (p ++ '_' :: (y ++ mo ++ dy ++ '-' :: n)) ++ fitsSuffix ++ gz ∧
    (gz = [] ∨ gz = gzSuffix) ∧
    y.length = 4 ∧ mo.length = 2 ∧ dy.length = 2 ∧ n.length = 9 ∧
    y.all Char.isDigit = true ∧ mo.all Char.isDigit = true ∧
    dy.all Char.isDigit = true ∧ n.all Char.isDigit = true ∧
    p.all (fun c => c != '\n') = true

example : parseTimestamp "cam1_20120304-000000001.fits.gz".data =
    some ("cam1".data, "2012".data, "03".data, "04".data) := by decide

example : parseTimestamp "cam1_20120304-000000001.fits".data =
    some ("cam1".data, "2012".data, "03".data, "04".data) := by decide

example : parseTimestamp "bad.fits.gz".data = none := by decide

example : pathJoinList "/data/out".data ["cam1".data, "2012".data, "03".data, "04".data]
    = "/data/out/cam1/2012/03/04".data := by decide

example : pathJoinList "/data/out".data ([] :: ["2012".data, "03".data, "04".data])
    = "/data/out/2012/03/04".data := by decide

/-- Declarative reading of the pattern without the optional `.gz`. -/
def MatchesCore (base p y mo dy : List Char) : Prop :=
  ∃ n : List Char,
    base = (p ++ '_' :: (y ++ mo ++ dy ++ '-' :: n)) ++ fitsSuffix ∧
    y.length = 4 ∧ mo.length = 2 ∧ dy.length = 2 ∧ n.length = 9 ∧
    y.all Char.isDigit = true ∧ mo.all Char.isDigit = true ∧
    dy.all Char.isDigit = true ∧ n.all Char.isDigit = true ∧
    p.all (fun c => c != '\n') = true

/-- Test fixture: every external operation succeeds, destination root
`/data/out` (the global assigned at line 79). -/
def envAll : Env where
  dstbasedir := some "/data/out".data
  isdir := fun _ => true
  mkdirOk := fun _ => true
  mvOk := fun _ _ => true
  gzipOk := fun _ => true

/-- Test fixture: `move_file` called with the module-level global
`dstbasedir` undefined (the script imported as a library). -/
def envNoGlobal : Env where
  dstbasedir := none
  isdir := fun _ => true
  mkdirOk := fun _ => true
  mvOk := fun _ _ => true
  gzipOk := fun _ => true

/-- Test fixture: the destination directory does not exist yet, and gzip,
mkdir and mv all succeed — the creation scenario of the spec example. -/
def envFresh : Env where
  dstbasedir := some "/data/out".data
  isdir := fun _ => false
  mkdirOk := fun _ => true
  mvOk := fun _ _ => true
  gzipOk := fun _ => true

/-- Test fixture: every external operation fails. -/
def envFail : Env where
  dstbasedir := some "/data/out".data
  isdir := fun _ => false
  mkdirOk := fun _ => false
  mvOk := fun _ _ => false
  gzipOk := fun _ => false

/-- Declarative reading of a full `re_fname` match: the filename is a
pattern match optionally followed by one trailing newline, which the end
anchor `$` tolerates. -/
def MatchesPatNl (fname p y mo dy : List Char) : Prop :=
  ∃ core nl : List Char,
    fname = core ++ nl ∧ (nl = [] ∨ nl = nlSuffix) ∧ MatchesPat core p y mo dy

/-! ### Helper lemmas -/

theorem stripSuffix_eq_some {l s b : List Char} :
    stripSuffix l s = some b ↔ l = b ++ s := by
  constructor
  · intro h
    unfold stripSuffix at h
    split at h
    · next hs =>
      obtain ⟨u, hu⟩ := hs
      subst hu
      injection h with h
      rw [← h, List.length_append, Nat.add_sub_cancel, List.take_left]
    · cases h
  · intro h
    subst h
    unfold stripSuffix
    rw [if_pos ⟨b, rfl⟩, List.length_append, Nat.add_sub_cancel, List.take_left]

theorem stripSuffix_eq_none {l s : List Char} :
    stripSuffix l s = none ↔ ¬ s <:+ l := by
  unfold stripSuffix
  split
  · next hs => simp [hs]
  · next hs => simp [hs]

theorem splitLast_eq_some {k : Nat} {l a b : List Char} :
    splitLast k l = some (a, b) ↔ l = a ++ b ∧ b.length = k := by
  constructor
  · intro h
    unfold splitLast at h
    split at h
    · next hk =>
      injection h with h
      simp only [Prod.mk.injEq] at h
      obtain ⟨h1, h2⟩ := h
      subst h1; subst h2
      refine ⟨(List.take_append_drop _ l).symm, ?_⟩
      rw [List.length_drop]
      omega
    · cases h
  · rintro ⟨rfl, hbk⟩
    subst hbk
    unfold splitLast
    rw [if_pos (by simp), List.length_append, Nat.add_sub_cancel, List.take_left,
      List.drop_left]

theorem checkTail_eq_some {t y mo dy : List Char} (ht : t.length = 19) :
    checkTail t = some (y, mo, dy) ↔
      ∃ n : List Char, t = '_' :: (y ++ mo ++ dy ++ '-' :: n) ∧
        y.length = 4 ∧ mo.length = 2 ∧ dy.length = 2 ∧ n.length = 9 ∧
        y.all Char.isDigit = true ∧ mo.all Char.isDigit = true ∧
        dy.all Char.isDigit = true ∧ n.all Char.isDigit = true := by
  constructor
  · intro h
    unfold checkTail at h
    split at h
    · next hc =>
      obtain ⟨hc1, hc9, hc8, hc10⟩ := hc
      injection h with h
      simp only [Prod.mk.injEq] at h
      obtain ⟨hy, hmo, hdy⟩ := h
      have hylen : y.length = 4 := by
        rw [← hy]; simp [ht]
      have hmolen : mo.length = 2 := by
        rw [← hmo]; simp [ht]
      have hdylen : dy.length = 2 := by
        rw [← hdy]; simp [ht]
      have hnlen : (t.drop 10).length = 9 := by
        simp [ht]
      -- reconstruct the 19-character tail from its slices
      have e2 : t.drop 1 = (t.drop 1).take 4 ++ t.drop 5 := by
        have e : (t.drop 1).drop 4 = t.drop 5 := by rw [List.drop_drop]
        rw [← e, List.take_append_drop]
      have e3 : t.drop 5 = (t.drop 5).take 2 ++ t.drop 7 := by
        have e : (t.drop 5).drop 2 = t.drop 7 := by rw [List.drop_drop]
        rw [← e, List.take_append_drop]
      have e4 : t.drop 7 = (t.drop 7).take 2 ++ t.drop 9 := by
        have e : (t.drop 7).drop 2 = t.drop 9 := by rw [List.drop_drop]
        rw [← e, List.take_append_drop]
      have e5 : t.drop 9 = '-' :: t.drop 10 := by
        have e5a : t.drop 9 = (t.drop 9).take 1 ++ (t.drop 9).drop 1 :=
          (List.take_append_drop 1 (t.drop 9)).symm
        have e : (t.drop 9).drop 1 = t.drop 10 := by rw [List.drop_drop]
        rw [e, hc9] at e5a
        exact e5a
      have hteq : t = '_' :: (y ++ mo ++ dy ++ '-' :: t.drop 10) := by
        calc t = t.take 1 ++ t.drop 1 := (List.take_append_drop 1 t).symm
          _ = '_' :: t.drop 1 := by rw [hc1]; rfl
          _ = '_' :: (y ++ t.drop 5) := by rw [e2, hy]
          _ = '_' :: (y ++ (mo ++ t.drop 7)) := by rw [e3, hmo]
          _ = '_' :: (y ++ (mo ++ (dy ++ t.drop 9))) := by rw [e4, hdy]
          _ = '_' :: (y ++ (mo ++ (dy ++ '-' :: t.drop 10))) := by rw [e5]
          _ = '_' :: (y ++ mo ++ dy ++ '-' :: t.drop 10) := by
            simp [List.append_assoc]
      have h8 : (t.drop 1).take 8 = y ++ mo ++ dy := by
        conv_lhs => rw [hteq]
        show ((y ++ mo ++ dy) ++ '-' :: t.drop 10).take 8 = y ++ mo ++ dy
        exact List.take_left' (by simp [hylen, hmolen, hdylen])
      rw [h8] at hc8
      simp only [List.all_append, Bool.and_eq_true] at hc8
      exact ⟨t.drop 10, hteq, hylen, hmolen, hdylen, hnlen,
        hc8.1.1, hc8.1.2, hc8.2, hc10⟩
    · cases h
  · rintro ⟨n, rfl, hy, hmo, hdy, hn, hyd, hmod, hdyd, hnd⟩
    have hrest : y ++ mo ++ dy ++ '-' :: n = y ++ (mo ++ (dy ++ '-' :: n)) := by
      simp [List.append_assoc]
    have h1 : ('_' :: (y ++ mo ++ dy ++ '-' :: n)).drop 1 = y ++ mo ++ dy ++ '-' :: n := rfl
    have hd4 : (y ++ mo ++ dy ++ '-' :: n).drop 4 = mo ++ (dy ++ '-' :: n) := by
      rw [hrest]; exact List.drop_left' hy
    have ht4 : (y ++ mo ++ dy ++ '-' :: n).take 4 = y := by
      rw [hrest]; exact List.take_left' hy
    have hd6 : (y ++ mo ++ dy ++ '-' :: n).drop 6 = dy ++ '-' :: n := by
      have : (y ++ mo ++ dy ++ '-' :: n).drop 6 = ((y ++ mo ++ dy ++ '-' :: n).drop 4).drop 2 := by
        rw [List.drop_drop]
      rw [this, hd4]; exact List.drop_left' hmo
    have hd8 : (y ++ mo ++ dy ++ '-' :: n).drop 8 = '-' :: n := by
      have : (y ++ mo ++ dy ++ '-' :: n).drop 8 = ((y ++ mo ++ dy ++ '-' :: n).drop 6).drop 2 := by
        rw [List.drop_drop]
      rw [this, hd6]; exact List.drop_left' hdy
    have hd9 : (y ++ mo ++ dy ++ '-' :: n).drop 9 = n := by
      have : (y ++ mo ++ dy ++ '-' :: n).drop 9 = ((y ++ mo ++ dy ++ '-' :: n).drop 8).drop 1 := by
        rw [List.drop_drop]
      rw [this, hd8]; rfl
    have ht8 : (y ++ mo ++ dy ++ '-' :: n).take 8 = y ++ mo ++ dy := by
      have hl : (y ++ mo ++ dy).length = 8 := by
        simp [List.length_append, hy, hmo, hdy]
      calc (y ++ mo ++ dy ++ '-' :: n).take 8
          = ((y ++ mo ++ dy) ++ '-' :: n).take 8 := rfl
        _ = y ++ mo ++ dy := List.take_left' hl
    unfold checkTail
    rw [if_pos]
    · congr 1
      simp only [Prod.mk.injEq]
      refine ⟨?_, ?_, ?_⟩
      · rw [h1, ht4]
      · show (('_' :: (y ++ mo ++ dy ++ '-' :: n)).drop 5).take 2 = mo
        have : ('_' :: (y ++ mo ++ dy ++ '-' :: n)).drop 5 = mo ++ (dy ++ '-' :: n) := hd4
        rw [this]; exact List.take_left' hmo
      · show (('_' :: (y ++ mo ++ dy ++ '-' :: n)).drop 7).take 2 = dy
        have : ('_' :: (y ++ mo ++ dy ++ '-' :: n)).drop 7 = dy ++ '-' :: n := hd6
        rw [this]
        exact List.take_left' hdy
    · refine ⟨rfl, ?_, ?_, ?_⟩
      · show (('_' :: (y ++ mo ++ dy ++ '-' :: n)).drop 9).take 1 = ['-']
        have : ('_' :: (y ++ mo ++ dy ++ '-' :: n)).drop 9 = '-' :: n := hd8
        rw [this]; rfl
      · show ((('_' :: (y ++ mo ++ dy ++ '-' :: n)).drop 1).take 8).all Char.isDigit = true
        rw [h1, ht8]
        simp [List.all_append, hyd, hmod, hdyd]
      · show (('_' :: (y ++ mo ++ dy ++ '-' :: n)).drop 10).all Char.isDigit = true
        have : ('_' :: (y ++ mo ++ dy ++ '-' :: n)).drop 10 = n := hd9
        rw [this]; exact hnd

theorem not_gz_suffix_fits (x : List Char) : ¬ gzSuffix <:+ x ++ fitsSuffix := by
  rintro ⟨u, hu⟩
  have h := congrArg (fun l : List Char => l.reverse.head?) hu
  simp only [List.reverse_append] at h
  simp [gzSuffix, fitsSuffix] at h

theorem parseNoGz_eq_some_iff {base p y mo dy : List Char} :
    parseNoGz base = some (p, y, mo, dy) ↔ MatchesCore base p y mo dy := by
  constructor
  · intro h
    unfold parseNoGz at h
    rcases hfits : stripSuffix base fitsSuffix with _ | r
    · simp only [hfits] at h; cases h
    · simp only [hfits] at h
      rcases hsplit : splitLast 19 r with _ | pt
      · simp only [hsplit] at h; cases h
      · obtain ⟨p2, t⟩ := pt
        simp only [hsplit] at h
        rcases hct : checkTail t with _ | g3
        · simp only [hct] at h; cases h
        · obtain ⟨y2, mo2, dy2⟩ := g3
          simp only [hct] at h
          split at h
          · next hnl =>
            injection h with h
            simp only [Prod.mk.injEq] at h
            obtain ⟨hp, hy, hmo, hdy⟩ := h
            subst hp; subst hy; subst hmo; subst hdy
            obtain ⟨hr, ht⟩ := splitLast_eq_some.1 hsplit
            obtain ⟨n, htt, hyl, hmol, hdyl, hnl9, hyd, hmod, hdyd, hnd⟩ :=
              (checkTail_eq_some ht).1 hct
            refine ⟨n, ?_, hyl, hmol, hdyl, hnl9, hyd, hmod, hdyd, hnd, hnl⟩
            rw [stripSuffix_eq_some.1 hfits, hr, htt]
          · cases h
  · rintro ⟨n, rfl, hyl, hmol, hdyl, hnl, hyd, hmod, hdyd, hnd, hpnl⟩
    have ht19 : ('_' :: (y ++ mo ++ dy ++ '-' :: n)).length = 19 := by
      simp [hyl, hmol, hdyl, hnl]
    have hct : checkTail ('_' :: (y ++ mo ++ dy ++ '-' :: n)) = some (y, mo, dy) :=
      (checkTail_eq_some ht19).2 ⟨n, rfl, hyl, hmol, hdyl, hnl, hyd, hmod, hdyd, hnd⟩
    have hsplit : splitLast 19 (p ++ '_' :: (y ++ mo ++ dy ++ '-' :: n)) =
        some (p, '_' :: (y ++ mo ++ dy ++ '-' :: n)) :=
      splitLast_eq_some.2 ⟨rfl, ht19⟩
    have hfits : stripSuffix ((p ++ '_' :: (y ++ mo ++ dy ++ '-' :: n)) ++ fitsSuffix)
        fitsSuffix = some (p ++ '_' :: (y ++ mo ++ dy ++ '-' :: n)) :=
      stripSuffix_eq_some.2 rfl
    unfold parseNoGz
    simp only [hfits, hsplit, hct]
    rw [if_pos hpnl]

theorem parseNoNl_of_strip_none {fname : List Char}
    (h : stripSuffix fname gzSuffix = none) :
    parseNoNl fname = parseNoGz fname := by
  unfold parseNoNl
  rw [h]

theorem parseNoNl_of_strip_some {fname b : List Char}
    (h : stripSuffix fname gzSuffix = some b) :
    parseNoNl fname = parseNoGz b := by
  unfold parseNoNl
  rw [h]

theorem parseNoNl_matches_iff {fname p y mo dy : List Char} :
    parseNoNl fname = some (p, y, mo, dy) ↔ MatchesPat fname p y mo dy := by
  constructor
  · intro h
    rcases hgz : stripSuffix fname gzSuffix with _ | b
    · rw [parseNoNl_of_strip_none hgz] at h
      obtain ⟨n, hb, rest⟩ := parseNoGz_eq_some_iff.1 h
      exact ⟨n, [], by rw [List.append_nil]; exact hb, Or.inl rfl, rest⟩
    · rw [parseNoNl_of_strip_some hgz] at h
      obtain ⟨n, hb, rest⟩ := parseNoGz_eq_some_iff.1 h
      have hfb : fname = b ++ gzSuffix := stripSuffix_eq_some.1 hgz
      exact ⟨n, gzSuffix, by rw [hfb, hb], Or.inr rfl, rest⟩
  · rintro ⟨n, gz, rfl, hgzc, rest⟩
    rcases hgzc with rfl | rfl
    · rw [List.append_nil]
      have hnone : stripSuffix ((p ++ '_' :: (y ++ mo ++ dy ++ '-' :: n)) ++ fitsSuffix)
          gzSuffix = none := stripSuffix_eq_none.2 (not_gz_suffix_fits _)
      rw [parseNoNl_of_strip_none hnone]
      exact parseNoGz_eq_some_iff.2 ⟨n, rfl, rest⟩
    · have hsome : stripSuffix ((p ++ '_' :: (y ++ mo ++ dy ++ '-' :: n)) ++ fitsSuffix
          ++ gzSuffix) gzSuffix =
          some ((p ++ '_' :: (y ++ mo ++ dy ++ '-' :: n)) ++ fitsSuffix) :=
        stripSuffix_eq_some.2 rfl
      rw [parseNoNl_of_strip_some hsome]
      exact parseNoGz_eq_some_iff.2 ⟨n, rfl, rest⟩

theorem single_suffix_getLast {c : Char} {l : List Char} (h : [c] <:+ l) :
    l.getLast? = some c := by
  obtain ⟨u, hu⟩ := h
  rw [← hu]
  exact List.getLast?_concat u

theorem parseTimestamp_of_nl_none {fname : List Char}
    (h : stripSuffix fname nlSuffix = none) :
    parseTimestamp fname = parseNoNl fname := by
  unfold parseTimestamp
  rw [h]

theorem parseTimestamp_of_nl_some {fname b : List Char}
    (h : stripSuffix fname nlSuffix = some b) :
    parseTimestamp fname = parseNoNl b := by
  unfold parseTimestamp
  rw [h]

theorem matchesPat_getLast {core p y mo dy : List Char}
    (h : MatchesPat core p y mo dy) :
    core.getLast? = some 's' ∨ core.getLast? = some 'z' := by
  obtain ⟨n, gz, heq, hgzc, -⟩ := h
  rcases hgzc with rfl | rfl
  · left
    rw [heq, List.append_nil, List.getLast?_append]
    rfl
  · right
    rw [heq, List.getLast?_append]
    rfl

theorem parseTimestamp_eq_some_iff {fname p y mo dy : List Char} :
    parseTimestamp fname = some (p, y, mo, dy) ↔ MatchesPatNl fname p y mo dy := by
  constructor
  · intro h
    rcases hnl : stripSuffix fname nlSuffix with _ | b
    · rw [parseTimestamp_of_nl_none hnl] at h
      exact ⟨fname, [], (List.append_nil fname).symm, Or.inl rfl,
        parseNoNl_matches_iff.1 h⟩
    · rw [parseTimestamp_of_nl_some hnl] at h
      exact ⟨b, nlSuffix, stripSuffix_eq_some.1 hnl, Or.inr rfl,
        parseNoNl_matches_iff.1 h⟩
  · rintro ⟨core, nl, rfl, hnlc, hcore⟩
    have hnotnl : ¬ nlSuffix <:+ core := by
      intro hsuf
      have hl : core.getLast? = some '\n' := single_suffix_getLast hsuf
      rcases matchesPat_getLast hcore with h | h <;> rw [hl] at h <;>
        exact absurd h (by decide)
    rcases hnlc with rfl | rfl
    · rw [List.append_nil]
      rw [parseTimestamp_of_nl_none (stripSuffix_eq_none.2 hnotnl)]
      exact parseNoNl_matches_iff.2 hcore
    · rw [parseTimestamp_of_nl_some (stripSuffix_eq_some.2 rfl)]
      exact parseNoNl_matches_iff.2 hcore

theorem all_imp_all {s : List Char} {pr q : Char → Bool}
    (hpq : ∀ c : Char, pr c = true → q c = true) (h : s.all pr = true) :
    s.all q = true := by
  induction s with
  | nil => rfl
  | cons a l ih =>
    simp only [List.all_cons, Bool.and_eq_true] at h ⊢
    exact ⟨hpq a h.1, ih h.2⟩

theorem digits_ne_slash {s : List Char} (h : s.all Char.isDigit = true) :
    s.all (fun c => c != '/') = true := by
  refine all_imp_all (fun c hd => ?_) h
  cases hc : c == '/'
  · simp [bne, hc]
  · have hce : c = '/' := by simpa using hc
    subst hce
    exact absurd hd (by decide)

theorem take_one_ne_slash {s : List Char} (h : s.all (fun c => c != '/') = true) :
    s.take 1 ≠ ['/'] := by
  cases s with
  | nil => simp
  | cons a l =>
    simp only [List.all_cons, Bool.and_eq_true] at h
    intro he
    have h1 : (a :: l).take 1 = [a] := rfl
    rw [h1] at he
    injection he with he1 _
    subst he1
    simpa using h.1

theorem getLast?_ne_slash {s : List Char} (h : s.all (fun c => c != '/') = true) :
    s.getLast? ≠ some '/' := by
  intro he
  have hm : '/' ∈ s := List.mem_of_getLast?_eq_some he
  have hfalse := List.all_eq_true.1 h _ hm
  simp at hfalse

theorem pathJoin_sep {a b : List Char} (ha : a ≠ []) (hal : a.getLast? ≠ some '/')
    (hb : b.take 1 ≠ ['/']) : pathJoin a b = a ++ '/' :: b := by
  unfold pathJoin
  rw [if_neg hb, if_neg]
  rintro (h | h)
  · exact ha h
  · exact hal h

theorem getLast?_append_sep {a b : List Char} (hb : b ≠ []) :
    (a ++ '/' :: b).getLast? = b.getLast? := by
  have h1 : a ++ '/' :: b = (a ++ ['/']) ++ b := by simp
  rw [h1, List.getLast?_append]
  cases hx : b.getLast? with
  | some v => rfl
  | none => exact absurd (List.getLast?_eq_none_iff.1 hx) hb

theorem move_file_of_parse_none {env : Env} {fname srcdir destb : List Char} {vb : Bool}
    (h : parseTimestamp fname = none) :
    move_file env fname srcdir destb vb = (.ret false, []) := by
  unfold move_file
  simp only [h]

theorem move_file_of_no_global {env : Env} {fname srcdir destb : List Char} {vb : Bool}
    {p y mo dy : List Char} (h : parseTimestamp fname = some (p, y, mo, dy))
    (hg : env.dstbasedir = none) :
    move_file env fname srcdir destb vb = (.nameError, []) := by
  unfold move_file
  simp only [h, hg]

theorem move_file_of_isdir {env : Env} {fname srcdir destb g : List Char} {vb : Bool}
    {p y mo dy : List Char} (h : parseTimestamp fname = some (p, y, mo, dy))
    (hg : env.dstbasedir = some g)
    (hd : env.isdir (pathJoinList g [p, y, mo, dy]) = true) :
    move_file env fname srcdir destb vb =
      (.ret (env.mvOk (pathJoin srcdir fname) (pathJoinList g [p, y, mo, dy])),
       [.mvCall (pathJoin srcdir fname) (pathJoinList g [p, y, mo, dy])]) := by
  unfold move_file
  simp only [h, hg, hd, if_true]

theorem move_file_of_mkdir {env : Env} {fname srcdir destb g : List Char} {vb : Bool}
    {p y mo dy : List Char} (h : parseTimestamp fname = some (p, y, mo, dy))
    (hg : env.dstbasedir = some g)
    (hd : env.isdir (pathJoinList g [p, y, mo, dy]) = false)
    (hm : env.mkdirOk (pathJoinList g [p, y, mo, dy]) = true) :
    move_file env fname srcdir destb vb =
      (.ret (env.mvOk (pathJoin srcdir fname) (pathJoinList g [p, y, mo, dy])),
       [.mkdirCall (pathJoinList g [p, y, mo, dy]),
        .mvCall (pathJoin srcdir fname) (pathJoinList g [p, y, mo, dy])]) := by
  unfold move_file
  simp only [h, hg, hd, hm, if_true, Bool.false_eq_true, if_false]

theorem move_file_of_mkdir_fail {env : Env} {fname srcdir destb g : List Char} {vb : Bool}
    {p y mo dy : List Char} (h : parseTimestamp fname = some (p, y, mo, dy))
    (hg : env.dstbasedir = some g)
    (hd : env.isdir (pathJoinList g [p, y, mo, dy]) = false)
    (hm : env.mkdirOk (pathJoinList g [p, y, mo, dy]) = false) :
    move_file env fname srcdir destb vb =
      (.ret false, [.mkdirCall (pathJoinList g [p, y, mo, dy])]) := by
  unfold move_file
  simp only [h, hg, hd, hm, Bool.false_eq_true, if_false]

theorem processOneFile_of_gzip_ok {env : Env} {srcdir destb fn : List Char} {vb : Bool}
    (hgz : env.gzipOk (pathJoin srcdir fn) = true) :
    processOneFile env srcdir destb fn vb =
      (some (move_file env (fn ++ gzSuffix) srcdir destb vb).1,
       .gzipCall (pathJoin srcdir fn) :: (move_file env (fn ++ gzSuffix) srcdir destb vb).2) := by
  unfold processOneFile
  simp only [hgz, if_true]

theorem processOneFile_of_gzip_fail {env : Env} {srcdir destb fn : List Char} {vb : Bool}
    (hgz : env.gzipOk (pathJoin srcdir fn) = false) :
    processOneFile env srcdir destb fn vb = (none, [.gzipCall (pathJoin srcdir fn)]) := by
  unfold processOneFile
  simp only [hgz, Bool.false_eq_true, if_false]

theorem runBatch_all {env : Env} {srcdir destb : List Char} {vb : Bool} {q : Nat → Bool} :
    ∀ (files : List (List Char)) (s : Nat),
    (∀ j : Nat, j < files.length → q (s + j) = false) →
    runBatch env srcdir destb vb q s files =
      (files.map (fun fn => (fn, (processOneFile env srcdir destb fn vb).2)),
       s + files.length, false) := by
  intro files
  induction files with
  | nil => intro s _; simp [runBatch]
  | cons fn rest ih =>
    intro s hq
    have h0 : q s = false := by
      have h1 := hq 0 (by simp)
      simpa using h1
    unfold runBatch
    simp only [h0, Bool.false_eq_true, if_false]
    rw [ih (s + 1) (fun j hj => by
      have h2 := hq (j + 1) (by simpa using Nat.succ_lt_succ hj)
      have e : s + (j + 1) = s + 1 + j := by omega
      rwa [e] at h2)]
    simp only [List.map_cons, List.length_cons]
    have harith : s + 1 + rest.length = s + (rest.length + 1) := by omega
    rw [harith]

theorem runBatch_stop {env : Env} {srcdir destb : List Char} {vb : Bool} {q : Nat → Bool} :
    ∀ (files : List (List Char)) (s k : Nat),
    k < files.length →
    (∀ j : Nat, j < k → q (s + j) = false) →
    q (s + k) = true →
    runBatch env srcdir destb vb q s files =
      ((files.take (k + 1)).map
         (fun fn => (fn, (processOneFile env srcdir destb fn vb).2)),
       s + k + 1, true) := by
  intro files
  induction files with
  | nil => intro s k hk _ _; simp at hk
  | cons fn rest ih =>
    intro s k hk hfalse htrue
    cases k with
    | zero =>
      have h0 : q s = true := by simpa using htrue
      unfold runBatch
      simp only [h0, if_true]
      rfl
    | succ k_ =>
      have h0 : q s = false := by
        have h1 := hfalse 0 (Nat.succ_pos k_)
        simpa using h1
      unfold runBatch
      simp only [h0, Bool.false_eq_true, if_false]
      rw [ih (s + 1) k_ (Nat.lt_of_succ_lt_succ hk)
          (fun j hj => by
            have h2 := hfalse (j + 1) (Nat.succ_lt_succ hj)
            have e : s + (j + 1) = s + 1 + j := by omega
            rwa [e] at h2)
          (by
            have e : s + (k_ + 1) = s + 1 + k_ := by omega
            rwa [e] at htrue)]
      simp only [List.take_succ_cons, List.map_cons]
      have harith : s + 1 + k_ + 1 = s + (k_ + 1) + 1 := by omega
      rw [harith]

theorem runBatch_control_indep (env env2 : Env) (sd db sd2 db2 : List Char)
    (vb vb2 : Bool) (q : Nat → Bool) :
    ∀ (files : List (List Char)) (s : Nat),
    filesOf (runBatch env sd db vb q s files).1 =
      filesOf (runBatch env2 sd2 db2 vb2 q s files).1 ∧
    (runBatch env sd db vb q s files).2 = (runBatch env2 sd2 db2 vb2 q s files).2 := by
  intro files
  induction files with
  | nil => intro s; exact ⟨rfl, rfl⟩
  | cons fn rest ih =>
    intro s
    unfold runBatch
    cases h0 : q s
    · simp only [Bool.false_eq_true, if_false]
      obtain ⟨ih1, ih2⟩ := ih (s + 1)
      refine ⟨?_, ih2⟩
      simp only [filesOf, List.map_cons] at ih1 ⊢
      rw [ih1]
    · simp [filesOf]

theorem move_file_no_nameError {env : Env} {fname srcdir destb g : List Char} {vb : Bool}
    (hg : env.dstbasedir = some g) :
    (move_file env fname srcdir destb vb).1 ≠ .nameError := by
  unfold move_file
  rcases hp : parseTimestamp fname with _ | ⟨p, y, mo, dy⟩
  · simp
  · simp only [hg]
    split
    · simp
    · split
      · simp
      · simp

theorem processOneFile_no_nameError {env : Env} {sd db fn g : List Char} {vb : Bool}
    (hg : env.dstbasedir = some g) :
    (processOneFile env sd db fn vb).1 ≠ some .nameError := by
  cases hgz : env.gzipOk (pathJoin sd fn)
  · rw [processOneFile_of_gzip_fail hgz]
    simp
  · rw [processOneFile_of_gzip_ok hgz]
    intro h
    injection h with h
    exact move_file_no_nameError hg h

theorem runBatch_idx_ge (env : Env) (sd db : List Char) (vb : Bool) (q : Nat → Bool) :
    ∀ (files : List (List Char)) (s : Nat), s ≤ (runBatch env sd db vb q s files).2.1 := by
  intro files
  induction files with
  | nil => intro s; exact Nat.le_refl s
  | cons fn rest ih =>
    intro s
    unfold runBatch
    cases h0 : q s
    · simp only [Bool.false_eq_true, if_false]
      exact Nat.le_trans (Nat.le_succ s) (ih (s + 1))
    · simp only [if_true]
      exact Nat.le_succ s

theorem runLoop_of_quit {env : Env} {sd db : List Char} {vb : Bool} {q : Nat → Bool}
    {listing : Nat → List (List Char)} {fuel poll idx : Nat} (h : q idx = true) :
    runLoop env sd db vb q listing (fuel + 1) poll idx = ([], some 0) := by
  unfold runLoop
  simp [h]

theorem runLoop_exits {env : Env} {sd db : List Char} {vb : Bool} {q : Nat → Bool}
    {listing : Nat → List (List Char)} (hq : QuitMono q) {T : Nat} (hT : q T = true) :
    ∀ (fuel poll idx : Nat), T ≤ idx + fuel →
    (runLoop env sd db vb q listing (fuel + 1) poll idx).2 = some 0 := by
  intro fuel
  induction fuel with
  | zero =>
    intro poll idx hle
    have hqi : q idx = true := hq T idx (by omega) hT
    unfold runLoop
    simp [hqi]
  | succ fuel ih =>
    intro poll idx hle
    cases h0 : q idx
    · unfold runLoop
      simp only [h0, Bool.false_eq_true, if_false]
      apply ih
      have hge := runBatch_idx_ge env sd db vb q (listCandidates (listing poll)) (idx + 1)
      omega
    · unfold runLoop
      simp [h0]

theorem take_one_append {a b : List Char} (ha : a ≠ []) : (a ++ b).take 1 = a.take 1 := by
  cases a with
  | nil => exact absurd rfl ha
  | cons x xs => rfl

theorem pathJoin_after_slash {a b : List Char} (hb : b.take 1 ≠ ['/']) :
    pathJoin (a ++ ['/']) b = a ++ '/' :: b := by
  unfold pathJoin
  rw [if_neg hb, if_pos (Or.inr (by simp [List.getLast?_append]))]
  simp

theorem ne_nil_of_length_eq {s : List Char} {k : Nat} (h : s.length = k) (hk : k ≠ 0) :
    s ≠ [] := by
  intro he
  subst he
  simp at h
  exact hk h.symm

theorem pathJoinList_four {g p y mo dy : List Char}
    (hg : g ≠ []) (hgl : g.getLast? ≠ some '/')
    (hp : p ≠ []) (hps : p.all (fun c => c != '/') = true)
    (hy : y ≠ []) (hyd : y.all Char.isDigit = true)
    (hmo : mo ≠ []) (hmod : mo.all Char.isDigit = true)
    (hdy : dy ≠ []) (hdyd : dy.all Char.isDigit = true) :
    pathJoinList g [p, y, mo, dy] =
      g ++ '/' :: p ++ '/' :: y ++ '/' :: mo ++ '/' :: dy := by
  have s1 : pathJoin g p = g ++ '/' :: p :=
    pathJoin_sep hg hgl (take_one_ne_slash hps)
  have s2 : pathJoin (g ++ '/' :: p) y = g ++ '/' :: p ++ '/' :: y :=
    pathJoin_sep (by simp)
      (by rw [getLast?_append_sep hp]; exact getLast?_ne_slash hps)
      (take_one_ne_slash (digits_ne_slash hyd))
  have s3 : pathJoin (g ++ '/' :: p ++ '/' :: y) mo =
      g ++ '/' :: p ++ '/' :: y ++ '/' :: mo :=
    pathJoin_sep (by simp)
      (by rw [getLast?_append_sep hy]; exact getLast?_ne_slash (digits_ne_slash hyd))
      (take_one_ne_slash (digits_ne_slash hmod))
  have s4 : pathJoin (g ++ '/' :: p ++ '/' :: y ++ '/' :: mo) dy =
      g ++ '/' :: p ++ '/' :: y ++ '/' :: mo ++ '/' :: dy :=
    pathJoin_sep (by simp)
      (by rw [getLast?_append_sep hmo]; exact getLast?_ne_slash (digits_ne_slash hmod))
      (take_one_ne_slash (digits_ne_slash hdyd))
  show pathJoin (pathJoin (pathJoin (pathJoin g p) y) mo) dy = _
  rw [s1, s2, s3, s4]

theorem pathJoinList_empty_first {g y mo dy : List Char}
    (hg : g ≠ []) (hgl : g.getLast? ≠ some '/')
    (hy : y ≠ []) (hyd : y.all Char.isDigit = true)
    (hmo : mo ≠ []) (hmod : mo.all Char.isDigit = true)
    (hdy : dy ≠ []) (hdyd : dy.all Char.isDigit = true) :
    pathJoinList g [[], y, mo, dy] = g ++ '/' :: y ++ '/' :: mo ++ '/' :: dy := by
  have s1 : pathJoin g [] = g ++ ['/'] :=
    pathJoin_sep hg hgl (by simp)
  have s2 : pathJoin (g ++ ['/']) y = g ++ '/' :: y :=
    pathJoin_after_slash (take_one_ne_slash (digits_ne_slash hyd))
  have s3 : pathJoin (g ++ '/' :: y) mo = g ++ '/' :: y ++ '/' :: mo :=
    pathJoin_sep (by simp)
      (by rw [getLast?_append_sep hy]; exact getLast?_ne_slash (digits_ne_slash hyd))
      (take_one_ne_slash (digits_ne_slash hmod))
  have s4 : pathJoin (g ++ '/' :: y ++ '/' :: mo) dy =
      g ++ '/' :: y ++ '/' :: mo ++ '/' :: dy :=
    pathJoin_sep (by simp)
      (by rw [getLast?_append_sep hmo]; exact getLast?_ne_slash (digits_ne_slash hmod))
      (take_one_ne_slash (digits_ne_slash hdyd))
  show pathJoin (pathJoin (pathJoin (pathJoin g []) y) mo) dy = _
  rw [s1, s2, s3, s4]

/-! ### Claims -/

/-- C1: for every filename of the form `<prefix>_<YYYY><MM><DD>-<9 digits>.fits`
(prefix nonempty, slash-free and newline-free, the digit groups of the stated
widths), processing it — gzip, then `move_file` of the name with `.gz`
appended — issues one gzip call, a mkdir call for
`<destinationRoot>/<prefix>/<YYYY>/<MM>/<DD>` exactly when that directory is
absent (assuming mkdir succeeds then), and one mv call into that directory;
the file kept its name, so its final path is
`<destinationRoot>/<prefix>/<YYYY>/<MM>/<DD>/<prefix>_YYYYMMDD-NNNNNNNNN.fits.gz`. -/
theorem C1_archive_path (env : Env) (srcdir g destb : List Char) (vb : Bool)
    (p y mo dy n : List Char)
    (hp : p ≠ []) (hps : p.all (fun c => c != '/') = true)
    (hpn : p.all (fun c => c != '\n') = true)
    (hyl : y.length = 4) (hmol : mo.length = 2) (hdyl : dy.length = 2)
    (hnl : n.length = 9)
    (hyd : y.all Char.isDigit = true) (hmod : mo.all Char.isDigit = true)
    (hdyd : dy.all Char.isDigit = true) (hnd : n.all Char.isDigit = true)
    (hg : env.dstbasedir = some g) (hgne : g ≠ []) (hgl : g.getLast? ≠ some '/')
    (hgz : env.gzipOk (pathJoin srcdir
      ((p ++ '_' :: (y ++ mo ++ dy ++ '-' :: n)) ++ fitsSuffix)) = true)
    (hmk : env.isdir (g ++ '/' :: p ++ '/' :: y ++ '/' :: mo ++ '/' :: dy) = false →
      env.mkdirOk (g ++ '/' :: p ++ '/' :: y ++ '/' :: mo ++ '/' :: dy) = true)
    (hmv : env.mvOk
      (pathJoin srcdir ((p ++ '_' :: (y ++ mo ++ dy ++ '-' :: n)) ++ fitsSuffix ++ gzSuffix))
      (g ++ '/' :: p ++ '/' :: y ++ '/' :: mo ++ '/' :: dy) = true) :
    processOneFile env srcdir destb
        ((p ++ '_' :: (y ++ mo ++ dy ++ '-' :: n)) ++ fitsSuffix) vb =
      (some (.ret true),
       .gzipCall (pathJoin srcdir
          ((p ++ '_' :: (y ++ mo ++ dy ++ '-' :: n)) ++ fitsSuffix)) ::
        ((if env.isdir (g ++ '/' :: p ++ '/' :: y ++ '/' :: mo ++ '/' :: dy) = true
            then ([] : List FsOp)
            else [.mkdirCall (g ++ '/' :: p ++ '/' :: y ++ '/' :: mo ++ '/' :: dy)]) ++
         [.mvCall (pathJoin srcdir
            ((p ++ '_' :: (y ++ mo ++ dy ++ '-' :: n)) ++ fitsSuffix ++ gzSuffix))
          (g ++ '/' :: p ++ '/' :: y ++ '/' :: mo ++ '/' :: dy)])) ∧
    pathJoin (g ++ '/' :: p ++ '/' :: y ++ '/' :: mo ++ '/' :: dy)
        ((p ++ '_' :: (y ++ mo ++ dy ++ '-' :: n)) ++ fitsSuffix ++ gzSuffix) =
      g ++ '/' :: p ++ '/' :: y ++ '/' :: mo ++ '/' :: dy ++ '/'
        :: ((p ++ '_' :: (y ++ mo ++ dy ++ '-' :: n)) ++ fitsSuffix ++ gzSuffix) := by
  have hy : y ≠ [] := ne_nil_of_length_eq hyl (by decide)
  have hmo : mo ≠ [] := ne_nil_of_length_eq hmol (by decide)
  have hdy : dy ≠ [] := ne_nil_of_length_eq hdyl (by decide)
  have hparse : parseTimestamp
      ((p ++ '_' :: (y ++ mo ++ dy ++ '-' :: n)) ++ fitsSuffix ++ gzSuffix) =
      some (p, y, mo, dy) :=
    parseTimestamp_eq_some_iff.2
      ⟨(p ++ '_' :: (y ++ mo ++ dy ++ '-' :: n)) ++ fitsSuffix ++ gzSuffix, [],
        (List.append_nil _).symm, Or.inl rfl,
        n, gzSuffix, rfl, Or.inr rfl, hyl, hmol, hdyl, hnl, hyd, hmod, hdyd, hnd, hpn⟩
  have hjoin : pathJoinList g [p, y, mo, dy] =
      g ++ '/' :: p ++ '/' :: y ++ '/' :: mo ++ '/' :: dy :=
    pathJoinList_four hgne hgl hp hps hy hyd hmo hmod hdy hdyd
  have htake : ((p ++ '_' :: (y ++ mo ++ dy ++ '-' :: n)) ++ fitsSuffix ++ gzSuffix).take 1
      ≠ ['/'] := by
    rw [take_one_append (by simp [hp]), take_one_append (by simp [hp]),
      take_one_append hp]
    exact take_one_ne_slash hps
  refine ⟨?_, ?_⟩
  · cases hd : env.isdir (g ++ '/' :: p ++ '/' :: y ++ '/' :: mo ++ '/' :: dy)
    · have hdir2 : env.isdir (pathJoinList g [p, y, mo, dy]) = false := by
        rw [hjoin]; exact hd
      have hmk2 : env.mkdirOk (pathJoinList g [p, y, mo, dy]) = true := by
        rw [hjoin]; exact hmk hd
      rw [processOneFile_of_gzip_ok hgz, move_file_of_mkdir hparse hg hdir2 hmk2,
        hjoin, hmv]
      rfl
    · have hdir2 : env.isdir (pathJoinList g [p, y, mo, dy]) = true := by
        rw [hjoin]; exact hd
      rw [processOneFile_of_gzip_ok hgz, move_file_of_isdir hparse hg hdir2, hjoin,
        hmv]
      rfl
  · refine pathJoin_sep (by simp) ?_ htake
    rw [getLast?_append_sep hdy]
    exact getLast?_ne_slash (digits_ne_slash hdyd)

/-- C1 witness: the spec example `cam1_20120304-000000001.fits` with
destination root `/data/out` in the creation scenario — the directory
`/data/out/cam1/2012/03/04` does not exist yet, so the trace is gzip, mkdir,
mv, and the file lands at the claimed path under its own name. -/
theorem C1_witness :
    processOneFile envFresh "/data/in".data "/tmp".data
        (("cam1".data ++ '_' :: ("2012".data ++ "03".data ++ "04".data ++ '-' :: "000000001".data)) ++ fitsSuffix) false =
      (some (.ret true),
       [.gzipCall (pathJoin "/data/in".data
          (("cam1".data ++ '_' :: ("2012".data ++ "03".data ++ "04".data ++ '-' :: "000000001".data)) ++ fitsSuffix)),
        .mkdirCall ("/data/out".data ++ '/' :: "cam1".data ++ '/' :: "2012".data ++ '/' :: "03".data ++ '/' :: "04".data),
        .mvCall (pathJoin "/data/in".data
            (("cam1".data ++ '_' :: ("2012".data ++ "03".data ++ "04".data ++ '-' :: "000000001".data)) ++ fitsSuffix ++ gzSuffix))
          ("/data/out".data ++ '/' :: "cam1".data ++ '/' :: "2012".data ++ '/' :: "03".data ++ '/' :: "04".data)]) ∧
    pathJoin ("/data/out".data ++ '/' :: "cam1".data ++ '/' :: "2012".data ++ '/' :: "03".data ++ '/' :: "04".data)
        (("cam1".data ++ '_' :: ("2012".data ++ "03".data ++ "04".data ++ '-' :: "000000001".data)) ++ fitsSuffix ++ gzSuffix) =
      "/data/out".data ++ '/' :: "cam1".data ++ '/' :: "2012".data ++ '/' :: "03".data ++ '/' :: "04".data ++ '/'
        :: (("cam1".data ++ '_' :: ("2012".data ++ "03".data ++ "04".data ++ '-' :: "000000001".data)) ++ fitsSuffix ++ gzSuffix) :=
  C1_archive_path envFresh "/data/in".data "/data/out".data "/tmp".data false
    "cam1".data "2012".data "03".data "04".data "000000001".data
    (by decide) (by decide) (by decide) (by decide) (by decide) (by decide) (by decide)
    (by decide) (by decide) (by decide) (by decide) rfl (by decide) (by decide)
    rfl (fun _ => rfl) rfl

/-- C2: `move_file` never reads its third parameter `destbasedir` — two calls
differing only in that argument agree exactly — and when the global
`dstbasedir` is undefined it fails with a `NameError` (empty trace) on every
pattern-matching filename. -/
theorem C2_destbasedir_unused (env : Env) (fname srcdir d1 d2 : List Char) (vb : Bool) :
    move_file env fname srcdir d1 vb = move_file env fname srcdir d2 vb ∧
    (env.dstbasedir = none →
      ∀ p y mo dy : List Char, parseTimestamp fname = some (p, y, mo, dy) →
      move_file env fname srcdir d1 vb = (.nameError, [])) := by
  refine ⟨rfl, ?_⟩
  intro hg p y mo dy hp
  exact move_file_of_no_global hp hg

/-- C2 witness: a pattern-matching name, global undefined, two different
`destbasedir` arguments. -/
theorem C2_witness :
    move_file envNoGlobal "cam1_20120304-000000001.fits.gz".data "/data/in".data
        "/aaa".data false =
      move_file envNoGlobal "cam1_20120304-000000001.fits.gz".data "/data/in".data
        "/bbb".data false ∧
    move_file envNoGlobal "cam1_20120304-000000001.fits.gz".data "/data/in".data
        "/aaa".data false = (.nameError, []) := by
  have h := C2_destbasedir_unused envNoGlobal "cam1_20120304-000000001.fits.gz".data
    "/data/in".data "/aaa".data "/bbb".data false
  exact ⟨h.1, h.2 rfl "cam1".data "2012".data "03".data "04".data (by decide)⟩

/-- C3: a candidate ending in `.fits` whose name with `.gz` appended does not
match the pattern is compressed (one gzip call) but `move_file` returns
`False` without any mkdir or mv call, so the `.gz` file stays in the source
directory. -/
theorem C3_unmatched_compressed_not_moved (env : Env) (srcdir destb fn : List Char)
    (vb : Bool)
    (hfits : endswith fn fitsSuffix = true)
    (hgz : env.gzipOk (pathJoin srcdir fn) = true)
    (hnm : parseTimestamp (fn ++ gzSuffix) = none) :
    processOneFile env srcdir destb fn vb =
      (some (.ret false), [.gzipCall (pathJoin srcdir fn)]) := by
  rw [processOneFile_of_gzip_ok hgz, move_file_of_parse_none hnm]

/-- C3 witness: `bad.fits` ends in `.fits` but `bad.fits.gz` does not match
the pattern. -/
theorem C3_witness :
    processOneFile envAll "/data/in".data "/tmp".data "bad.fits".data false =
      (some (.ret false), [.gzipCall (pathJoin "/data/in".data "bad.fits".data)]) :=
  C3_unmatched_compressed_not_moved envAll "/data/in".data "/tmp".data "bad.fits".data
    false (by decide) rfl (by decide)

/-- C4: on every poll the candidate list consists of exactly the directory
entries ending in `.fits`, and an entry ending in `.fits.gz` is never a
candidate. -/
theorem C4_candidate_filter (entries : List (List Char)) (fn : List Char) :
    (fn ∈ listCandidates entries ↔ fn ∈ entries ∧ endswith fn fitsSuffix = true) ∧
    (endswith fn (fitsSuffix ++ gzSuffix) = true → fn ∉ listCandidates entries) := by
  constructor
  · unfold listCandidates
    exact List.mem_filter
  · intro hgz hmem
    have hf : endswith fn fitsSuffix = true :=
      (List.mem_filter.1 hmem).2
    have h1 : fn.getLast? = some 's' := by
      have hsuf : fitsSuffix <:+ fn := by simpa [endswith] using hf
      obtain ⟨u, hu⟩ := hsuf
      rw [← hu, List.getLast?_append]
      rfl
    have h2 : fn.getLast? = some 'z' := by
      have hsuf : fitsSuffix ++ gzSuffix <:+ fn := by simpa [endswith] using hgz
      obtain ⟨u, hu⟩ := hsuf
      rw [← hu, List.getLast?_append]
      rfl
    rw [h1] at h2
    exact absurd h2 (by decide)

/-- C4 witness: a leftover `b.fits.gz` is not a candidate while `a_... .fits`
is. -/
theorem C4_witness :
    "b.fits.gz".data ∉
      listCandidates ["a_20120304-000000001.fits".data, "b.fits.gz".data, "c.txt".data] :=
  (C4_candidate_filter
    ["a_20120304-000000001.fits".data, "b.fits.gz".data, "c.txt".data]
    "b.fits.gz".data).2 (by decide)

/-- C5: if the quit flag is set before a poll begins the loop exits at the
`while` check with no file of that poll processed and exit status 0; if it is
first observed set after the `k`-th file of a batch, exactly the first `k+1`
files are processed (each to completion) and the loop then exits with status
0; and when the flag stays unset during a batch it is read exactly once per
file after the one read in the `while` condition. -/
theorem C5_quit_flag (env : Env) (srcdir destb : List Char) (vb : Bool)
    (q : Nat → Bool) (listing : Nat → List (List Char)) (hq : QuitMono q) :
    (∀ fuel poll idx : Nat, q idx = true →
      runLoop env srcdir destb vb q listing (fuel + 1) poll idx = ([], some 0)) ∧
    (∀ fuel poll idx k : Nat,
      k < (listCandidates (listing poll)).length →
      q (idx + k) = false → q (idx + k + 1) = true →
      runLoop env srcdir destb vb q listing (fuel + 2) poll idx =
        ([((listCandidates (listing poll)).take (k + 1)).map
            (fun fn => (fn, (processOneFile env srcdir destb fn vb).2))],
         some 0)) ∧
    (∀ (s : Nat) (files : List (List Char)),
      (∀ j : Nat, j < files.length → q (s + j) = false) →
      (runBatch env srcdir destb vb q s files).2.1 = s + files.length) := by
  refine ⟨fun fuel poll idx h => runLoop_of_quit h, ?_, ?_⟩
  · intro fuel poll idx k hk h0 h1
    have hidx : q idx = false := by
      cases hqi : q idx
      · rfl
      · have h2 := hq idx (idx + k) (Nat.le_add_right _ _) hqi
        rw [h2] at h0
        cases h0
    have hf : ∀ j : Nat, j < k → q (idx + 1 + j) = false := by
      intro j hj
      cases hj2 : q (idx + 1 + j)
      · rfl
      · have h3 := hq (idx + 1 + j) (idx + k) (by omega) hj2
        rw [h3] at h0
        cases h0
    have ht : q (idx + 1 + k) = true := by
      have e : idx + 1 + k = idx + k + 1 := by omega
      rw [e]
      exact h1
    have hq2 : q (idx + 1 + k + 1) = true :=
      hq (idx + k + 1) (idx + 1 + k + 1) (by omega) h1
    show runLoop env srcdir destb vb q listing (fuel + 1 + 1) poll idx = _
    unfold runLoop
    simp only [hidx, Bool.false_eq_true, if_false]
    rw [runBatch_stop (listCandidates (listing poll)) (idx + 1) k hk hf ht]
    simp only
    rw [runLoop_of_quit hq2]
  · intro s files h
    rw [runBatch_all files s h]

/-- C5 witness: three candidates, the flag becomes set at the read after the
second file: exactly two files are processed and the loop exits with 0. -/
theorem C5_witness :
    runLoop envAll "/data/in".data "/data/out".data false (fun i => decide (2 ≤ i))
        (fun _ => ["a_20120304-000000001.fits".data, "b.fits".data, "c.fits".data])
        2 0 0 =
      ([((listCandidates
            ["a_20120304-000000001.fits".data, "b.fits".data, "c.fits".data]).take 2).map
          (fun fn =>
            (fn, (processOneFile envAll "/data/in".data "/data/out".data fn false).2))],
       some 0) := by
  have h := (C5_quit_flag envAll "/data/in".data "/data/out".data false
      (fun i => decide (2 ≤ i))
      (fun _ => ["a_20120304-000000001.fits".data, "b.fits".data, "c.fits".data])
      (by
        intro i j hij hi
        simp only [decide_eq_true_eq] at hi ⊢
        omega)).2.1
  exact h 0 0 0 1 (by decide) (by decide) (by decide)

/-- C6: which files of a batch are processed, the final read index and the
break flag do not depend on the environment oracles at all — a gzip, mkdir or
mv failure aborts only that file and the loop continues — and with the global
`dstbasedir` defined no per-file processing yields the `NameError` outcome. -/
theorem C6_failure_isolated (env env2 : Env) (sd db sd2 db2 : List Char)
    (vb vb2 : Bool) (q : Nat → Bool) (s : Nat) (files : List (List Char))
    (g : List Char) (hg : env.dstbasedir = some g) :
    filesOf (runBatch env sd db vb q s files).1 =
      filesOf (runBatch env2 sd2 db2 vb2 q s files).1 ∧
    (runBatch env sd db vb q s files).2 = (runBatch env2 sd2 db2 vb2 q s files).2 ∧
    ∀ fn : List Char, (processOneFile env sd db fn vb).1 ≠ some .nameError := by
  obtain ⟨h1, h2⟩ := runBatch_control_indep env env2 sd db sd2 db2 vb vb2 q files s
  exact ⟨h1, h2, fun fn => processOneFile_no_nameError hg⟩

/-- C6 witness: an all-failing environment processes the same files as an
all-succeeding one, and yields no `NameError`. -/
theorem C6_witness :
    filesOf (runBatch envFail "/i".data "/o".data false (fun _ => false) 0
        ["a.fits".data, "b_20120304-000000001.fits".data]).1 =
      filesOf (runBatch envAll "/data/in".data "/data/out".data true (fun _ => false) 0
        ["a.fits".data, "b_20120304-000000001.fits".data]).1 ∧
    (runBatch envFail "/i".data "/o".data false (fun _ => false) 0
        ["a.fits".data, "b_20120304-000000001.fits".data]).2 =
      (runBatch envAll "/data/in".data "/data/out".data true (fun _ => false) 0
        ["a.fits".data, "b_20120304-000000001.fits".data]).2 ∧
    (processOneFile envFail "/i".data "/o".data "a.fits".data false).1 ≠
      some .nameError := by
  have h := C6_failure_isolated envFail envAll "/i".data "/o".data "/data/in".data
    "/data/out".data false true (fun _ => false) 0
    ["a.fits".data, "b_20120304-000000001.fits".data] "/data/out".data rfl
  exact ⟨h.1, h.2.1, h.2.2 "a.fits".data⟩

/-- C7: when the computed destination directory already exists at check time,
`move_file` issues no mkdir call: the trace is exactly the one mv call. -/
theorem C7_idempotent_skip (env : Env) (fname srcdir destb g : List Char) (vb : Bool)
    (p y mo dy : List Char) (hp : parseTimestamp fname = some (p, y, mo, dy))
    (hg : env.dstbasedir = some g)
    (hd : env.isdir (pathJoinList g [p, y, mo, dy]) = true) :
    move_file env fname srcdir destb vb =
      (.ret (env.mvOk (pathJoin srcdir fname) (pathJoinList g [p, y, mo, dy])),
       [.mvCall (pathJoin srcdir fname) (pathJoinList g [p, y, mo, dy])]) :=
  move_file_of_isdir hp hg hd

/-- C7 witness: existing destination directory, no mkdir call in the trace. -/
theorem C7_witness :
    move_file envAll "cam1_20120304-000000001.fits.gz".data "/data/in".data
        "/tmp".data false =
      (.ret true,
       [.mvCall (pathJoin "/data/in".data "cam1_20120304-000000001.fits.gz".data)
          (pathJoinList "/data/out".data
            ["cam1".data, "2012".data, "03".data, "04".data])]) :=
  C7_idempotent_skip envAll "cam1_20120304-000000001.fits.gz".data "/data/in".data
    "/tmp".data "/data/out".data false
    "cam1".data "2012".data "03".data "04".data (by decide) rfl rfl

/-- C8 counterexample: the regex end anchor `$` also matches just before a
single trailing newline, so `x_20120304-000000001.fits` followed by a newline
parses successfully although it is not of the shape
`<prefix>_<YYYY><MM><DD>-<9 digits>.fits[.gz]` (no pattern alternative ends in
a newline, and the leading group cannot contain one). -/
theorem C8_counterexample :
    parseTimestamp ("x_20120304-000000001.fits".data ++ ['\n']) =
      some ("x".data, "2012".data, "03".data, "04".data) ∧
    ¬ MatchesPat ("x_20120304-000000001.fits".data ++ ['\n'])
        "x".data "2012".data "03".data "04".data := by
  constructor
  · decide
  · intro h
    have hl : ("x_20120304-000000001.fits".data ++ ['\n']).getLast? = some '\n' :=
      List.getLast?_concat _
    rcases matchesPat_getLast h with h2 | h2 <;> rw [hl] at h2 <;>
      exact absurd h2 (by decide)

/-- C8 (amended): parsing succeeds with groups `(prefix, year, month, day)`
exactly when the filename decomposes as `<prefix>_<YYYY><MM><DD>-<9 digits>.fits`
optionally followed by `.gz` and optionally by one trailing newline (which the
regex end anchor `$` tolerates); the prefix is newline-free as the regex `.`
requires.  On any filename that does not parse, `move_file` returns `False`
with no directory creation and no move. -/
theorem C8_parse_exact (fname : List Char) :
    (∀ p y mo dy : List Char,
      parseTimestamp fname = some (p, y, mo, dy) ↔ MatchesPatNl fname p y mo dy) ∧
    (parseTimestamp fname = none →
      ∀ (env : Env) (srcdir destb : List Char) (vb : Bool),
        move_file env fname srcdir destb vb = (.ret false, [])) :=
  ⟨fun _ _ _ _ => parseTimestamp_eq_some_iff,
   fun h env srcdir destb vb => move_file_of_parse_none h⟩

/-- C8 witness: `nope.fits` does not parse and is not moved. -/
theorem C8_witness :
    move_file envAll "nope.fits".data "/data/in".data "/tmp".data false =
      (.ret false, []) :=
  (C8_parse_exact "nope.fits".data).2 (by decide) envAll "/data/in".data "/tmp".data false

/-- C9: with a positional argument, a missing (or empty) `--indir` or
`--outdir`, or a nonexistent named directory, the program exits with the usage
error status 2 before any loop iteration; otherwise the loop runs and, once a
SIGINT/SIGTERM has set the quit flag, exits with status 0. -/
theorem C9_startup_and_exit (abspath : List Char → List Char)
    (isdir : List Char → Bool) (opts : Opts) (args : List (List Char)) (env : Env)
    (q : Nat → Bool) (listing : Nat → List (List Char)) (hq : QuitMono q) :
    ((args ≠ [] ∨ falsy opts.indir = true ∨ falsy opts.outdir = true ∨
        isdir (abspath (opts.indir.getD [])) = false ∨
        isdir (abspath (opts.outdir.getD [])) = false) →
      ∀ fuel : Nat,
        runProgram abspath isdir opts args env q listing fuel = ([], some 2)) ∧
    (args = [] → falsy opts.indir = false → falsy opts.outdir = false →
      isdir (abspath (opts.indir.getD [])) = true →
      isdir (abspath (opts.outdir.getD [])) = true →
      ∀ T fuel : Nat, q T = true → T ≤ fuel →
        (runProgram abspath isdir opts args env q listing (fuel + 1)).2 = some 0) := by
  constructor
  · intro hbad fuel
    have hstart : startup abspath isdir opts args = .error 2 := by
      simp only [startup]
      split_ifs with h1 h2 h3 h4 h5
      any_goals rfl
      exfalso
      rcases hbad with h | h | h | h | h
      · exact h1 h
      · exact h2 h
      · exact h3 h
      · rw [h] at h4
        exact h4 rfl
      · rw [h] at h5
        exact h5 rfl
    simp only [runProgram, hstart]
  · intro ha hi ho hs hd T fuel hT hTf
    have hstart : startup abspath isdir opts args =
        .ok ⟨abspath (opts.indir.getD []), abspath (opts.outdir.getD []),
          opts.verbose⟩ := by
      simp only [startup]
      rw [if_neg (by simp [ha]), if_neg (by simp [hi]), if_neg (by simp [ho]),
        if_neg (by simp [hs]), if_neg (by simp [hd])]
    simp only [runProgram, hstart]
    exact runLoop_exits hq hT fuel 0 0 (by omega)

/-- C9 witness: a missing `--indir` exits with status 2 without polling; a
valid configuration exits 0 after the quit signal. -/
theorem C9_witness :
    runProgram (fun s => s) (fun _ => true)
        ⟨none, some "/o".data, false⟩ [] envAll
        (fun i => decide (1 ≤ i)) (fun _ => []) 5 = ([], some 2) ∧
    (runProgram (fun s => s) (fun _ => true)
        ⟨some "/i".data, some "/o".data, false⟩ [] envAll
        (fun i => decide (1 ≤ i)) (fun _ => []) 2).2 = some 0 := by
  have hqm : QuitMono (fun i => decide (1 ≤ i)) := by
    intro i j hij hi
    simp only [decide_eq_true_eq] at hi ⊢
    omega
  constructor
  · exact (C9_startup_and_exit (fun s => s) (fun _ => true)
      ⟨none, some "/o".data, false⟩ [] envAll (fun i => decide (1 ≤ i))
      (fun _ => []) hqm).1 (Or.inr (Or.inl rfl)) 5
  · exact (C9_startup_and_exit (fun s => s) (fun _ => true)
      ⟨some "/i".data, some "/o".data, false⟩ [] envAll (fun i => decide (1 ≤ i))
      (fun _ => []) hqm).2 rfl rfl rfl rfl rfl 1 1 (by decide) (by decide)

/-- C10: the pattern accepts an empty first group: `_YYYYMMDD-NNNNNNNNN.fits`
parses with an empty first segment, and since joining an empty path component
only adds the separator, such a file is archived to
`<destinationRoot>/<YYYY>/<MM>/<DD>` with no extra directory level and no
doubled slash. -/
theorem C10_empty_first_group (env : Env) (srcdir destb g : List Char) (vb : Bool)
    (y mo dy n : List Char)
    (hyl : y.length = 4) (hmol : mo.length = 2) (hdyl : dy.length = 2)
    (hnl : n.length = 9)
    (hyd : y.all Char.isDigit = true) (hmod : mo.all Char.isDigit = true)
    (hdyd : dy.all Char.isDigit = true) (hnd : n.all Char.isDigit = true)
    (hg : env.dstbasedir = some g) (hgne : g ≠ []) (hgl : g.getLast? ≠ some '/')
    (hdir : env.isdir (g ++ '/' :: y ++ '/' :: mo ++ '/' :: dy) = true) :
    parseTimestamp (('_' :: (y ++ mo ++ dy ++ '-' :: n)) ++ fitsSuffix) =
      some ([], y, mo, dy) ∧
    pathJoinList g [[], y, mo, dy] = g ++ '/' :: y ++ '/' :: mo ++ '/' :: dy ∧
    move_file env (('_' :: (y ++ mo ++ dy ++ '-' :: n)) ++ fitsSuffix ++ gzSuffix)
        srcdir destb vb =
      (.ret (env.mvOk
          (pathJoin srcdir
            (('_' :: (y ++ mo ++ dy ++ '-' :: n)) ++ fitsSuffix ++ gzSuffix))
          (g ++ '/' :: y ++ '/' :: mo ++ '/' :: dy)),
       [.mvCall
          (pathJoin srcdir
            (('_' :: (y ++ mo ++ dy ++ '-' :: n)) ++ fitsSuffix ++ gzSuffix))
          (g ++ '/' :: y ++ '/' :: mo ++ '/' :: dy)]) := by
  have hy : y ≠ [] := ne_nil_of_length_eq hyl (by decide)
  have hmo : mo ≠ [] := ne_nil_of_length_eq hmol (by decide)
  have hdy : dy ≠ [] := ne_nil_of_length_eq hdyl (by decide)
  have hjoin : pathJoinList g [[], y, mo, dy] =
      g ++ '/' :: y ++ '/' :: mo ++ '/' :: dy :=
    pathJoinList_empty_first hgne hgl hy hyd hmo hmod hdy hdyd
  have hp1 : parseTimestamp (('_' :: (y ++ mo ++ dy ++ '-' :: n)) ++ fitsSuffix) =
      some ([], y, mo, dy) :=
    parseTimestamp_eq_some_iff.2
      ⟨('_' :: (y ++ mo ++ dy ++ '-' :: n)) ++ fitsSuffix, [],
        (List.append_nil _).symm, Or.inl rfl,
        n, [], by simp, Or.inl rfl, hyl, hmol, hdyl, hnl, hyd, hmod, hdyd, hnd, rfl⟩
  have hp2 : parseTimestamp
      (('_' :: (y ++ mo ++ dy ++ '-' :: n)) ++ fitsSuffix ++ gzSuffix) =
      some ([], y, mo, dy) :=
    parseTimestamp_eq_some_iff.2
      ⟨('_' :: (y ++ mo ++ dy ++ '-' :: n)) ++ fitsSuffix ++ gzSuffix, [],
        (List.append_nil _).symm, Or.inl rfl,
        n, gzSuffix, by simp, Or.inr rfl, hyl, hmol, hdyl, hnl, hyd, hmod, hdyd, hnd, rfl⟩
  have hdir2 : env.isdir (pathJoinList g [[], y, mo, dy]) = true := by
    rw [hjoin]; exact hdir
  refine ⟨hp1, hjoin, ?_⟩
  rw [move_file_of_isdir hp2 hg hdir2, hjoin]

/-- C10 witness: `_20120304-000000001.fits` with destination root `/data/out`
is archived under `/data/out/2012/03/04`. -/
theorem C10_witness :
    parseTimestamp
        (('_' :: ("2012".data ++ "03".data ++ "04".data ++ '-' :: "000000001".data))
          ++ fitsSuffix) =
      some ([], "2012".data, "03".data, "04".data) ∧
    pathJoinList "/data/out".data [[], "2012".data, "03".data, "04".data] =
      "/data/out".data ++ '/' :: "2012".data ++ '/' :: "03".data ++ '/' :: "04".data ∧
    move_file envAll
        (('_' :: ("2012".data ++ "03".data ++ "04".data ++ '-' :: "000000001".data))
          ++ fitsSuffix ++ gzSuffix) "/data/in".data "/tmp".data false =
      (.ret true,
       [.mvCall
          (pathJoin "/data/in".data
            (('_' :: ("2012".data ++ "03".data ++ "04".data ++ '-' :: "000000001".data))
              ++ fitsSuffix ++ gzSuffix))
          ("/data/out".data ++ '/' :: "2012".data ++ '/' :: "03".data ++ '/'
            :: "04".data)]) :=
  C10_empty_first_group envAll "/data/in".data "/tmp".data "/data/out".data false
    "2012".data "03".data "04".data "000000001".data
    (by decide) (by decide) (by decide) (by decide) (by decide) (by decide)
    (by decide) (by decide) rfl (by decide) (by decide) rfl

end SjcamCopy
